import Mathlib

/-!
Shallow embedding of `InteractiveHtmlBom/ecad/kicad.py` (class `PcbnewParser`),
the board geometry and electrical data normalization engine.

Conventions of the embedding:
* host integer coordinates (nanometers) are `ℤ`; normalized millimeter values
  are `ℚ` (the Python floats are idealized as exact rationals);
* host angle values (decidegrees, possibly fractional) are `ℚ`;
* Python `dict` records become structures with `Option` fields for keys that
  are present only on some paths;
* host-API capability probes (`hasattr ...`) become `Option`-valued fields or
  boolean capability flags on the input model;
* external collaborators (the pcbnew geometry engine's bounding-rect
  computation, text-variable expansion, the schematic-data parser, the font
  service) are modelled as oracle inputs, since their code is outside this
  module;
* the logger becomes an explicit list of log entries where the parse
  operation itself logs; leaf-level info/skip messages carry no data and are
  not modelled.
-/

namespace KC

/-- Board layers relevant to the parser (`pcbnew` layer ids). -/
inductive KLayer
  | FCu | BCu | FSilkS | BSilkS | FFab | BFab | EdgeCuts | other
  deriving DecidableEq, Repr

/-- A point in host integer units. -/
abbrev IPoint := ℤ × ℤ

/-- A normalized point in millimeters. -/
abbrev QPoint := ℚ × ℚ

/-- Embedding of `PcbnewParser.normalize`: scale host integer units to millimeters
(`point * 1e-6`). -/
def normalize (point : IPoint) : QPoint :=
  ((point.1 : ℚ) * (1 / 1000000), (point.2 : ℚ) * (1 / 1000000))

/-- Round-half-to-even to an integer, Python's `round(x)` tie behavior. -/
def roundHalfEven (q : ℚ) : ℤ :=
  let f := ⌊q⌋
  let r := q - (f : ℚ)
  if r < 1 / 2 then f
  else if 1 / 2 < r then f + 1
  else if 2 ∣ f then f else f + 1

/-- Python's `round(x, 2)`: round to two decimal digits, ties to even. -/
def pyRound2 (q : ℚ) : ℚ :=
  (roundHalfEven (q * 100) : ℚ) / 100

/-- Host shape enumeration of a `PCB_SHAPE` drawing
(`S_SEGMENT`, `S_CIRCLE`, ...); `unknown` covers every other value. -/
inductive SrcShapeKind
  | segment | circle | arc | polygon | curve | rect | unknown
  deriving DecidableEq, Repr

/-- The shape-name lookup table at the head of `parse_shape`
(`{...}.get(d.GetShape(), "")`). -/
def shapeName : SrcShapeKind → String
  | .segment => "segment"
  | .circle => "circle"
  | .arc => "arc"
  | .polygon => "polygon"
  | .curve => "curve"
  | .rect => "rect"
  | .unknown => ""

/-- A polygon set as exposed by the host: outlines in source order; an
outline is `none` when the host object lacks the `PointCount` method
(unpatched legacy host). -/
abbrev PolySet := List (Option (List IPoint))

/-- Input model of a `pcbnew.PCB_SHAPE` drawing primitive: the getters
`parse_shape` consults. `polyShapeCap` is `none` on hosts without
`GetPolyShape` (KiCad 4); `parentOrientation` is the owning footprint's
orientation (decidegrees), `none` when there is no parent footprint. -/
structure ShapeItem where
  kind : SrcShapeKind
  start : IPoint
  end_ : IPoint
  width : ℤ
  radius : ℤ
  arcAngleStart : ℚ
  angle : ℚ
  polyShapeCap : Option PolySet
  parentOrientation : Option ℤ
  bezControl1 : IPoint
  bezControl2 : IPoint
  deriving DecidableEq, Repr

/-- The `angle` value stored on a polygon shape record: the source
initializes `angle = 0` (a scalar) and, when an owning footprint exists,
overwrites it with `parent_footprint.GetOrientation() * 0.1,` — the
trailing comma makes that a one-element tuple, modelled as `tup`. -/
inductive AngleVal
  | scalar (q : ℚ)
  | tup (l : List ℚ)
  deriving DecidableEq, Repr

/-- Output record of `parse_shape` / track dicts: one structure whose
`Option` fields mirror the keys the Python dict carries on each path. -/
structure ShapeRec where
  ty : String
  start : Option QPoint := none
  end_ : Option QPoint := none
  width : Option ℚ := none
  radius : Option ℚ := none
  startangle : Option ℚ := none
  endangle : Option ℚ := none
  pos : Option QPoint := none
  angleVal : Option AngleVal := none
  polygons : Option (List (List QPoint)) := none
  cpa : Option QPoint := none
  cpb : Option QPoint := none
  deriving DecidableEq, Repr

/-- Embedding of `PcbnewParser.parse_poly_set`: flatten a polygon set into normalized
point sequences; stops and returns the prefix collected so far when an
outline lacks the point-enumeration capability. -/
def parse_poly_set : PolySet → List (List QPoint)
  | [] => []
  | none :: _ => []
  | some outline :: rest =>
      (outline.map normalize) :: parse_poly_set rest

/-- Embedding of `PcbnewParser.parse_shape`: normalize one drawing primitive into a
canonical shape record, or `none` for unsupported kinds. -/
def parse_shape (d : ShapeItem) : Option ShapeRec :=
  let shape := shapeName d.kind
  if shape = "" then none
  else
    let start := normalize d.start
    let end_ := normalize d.end_
    if shape = "segment" ∨ shape = "rect" then
      some { ty := shape, start := some start, end_ := some end_,
             width := some ((d.width : ℚ) * (1 / 1000000)) }
    else if shape = "circle" then
      some { ty := shape, start := some start,
             radius := some ((d.radius : ℚ) * (1 / 1000000)),
             width := some ((d.width : ℚ) * (1 / 1000000)) }
    else if shape = "arc" then
      let a1 := pyRound2 (d.arcAngleStart * (1 / 10))
      let a2 := pyRound2 ((d.arcAngleStart + d.angle) * (1 / 10))
      let p := if d.angle < 0 then (a2, a1) else (a1, a2)
      some { ty := shape, start := some start,
             radius := some ((d.radius : ℚ) * (1 / 1000000)),
             startangle := some p.1, endangle := some p.2,
             width := some ((d.width : ℚ) * (1 / 1000000)) }
    else if shape = "polygon" then
      match d.polyShapeCap with
      | none => none
      | some ps =>
          let polygons := parse_poly_set ps
          let angle : AngleVal :=
            match d.parentOrientation with
            | some o => .tup [(o : ℚ) * (1 / 10)]
            | none => .scalar 0
          some { ty := shape, pos := some start, angleVal := some angle,
                 polygons := some polygons }
    else if shape = "curve" then
      some { ty := shape, start := some start,
             cpa := some (normalize d.bezControl1),
             cpb := some (normalize d.bezControl2),
             end_ := some end_,
             width := some ((d.width : ℚ) * (1 / 1000000)) }
    else none

/-- Input model of a text primitive: the getters `parse_text` consults.
`textThicknessCap`, `segmentListCap`, `textAngleCap`, `textSizeCap` and
`shownTextCap` are `none` on hosts lacking the respective method
(`hasattr` probes in the source); `segmentListCap` holds the flat
endpoint list of `TransformToSegmentList` already chunked into
(start, end) pairs, as the host guarantees an even count. -/
structure TextItem where
  pos : IPoint
  visible : Bool
  textThicknessCap : Option ℤ
  thickness : ℤ
  segmentListCap : Option (List (IPoint × IPoint))
  cls : String
  drawRotation : ℤ
  textAngleCap : Option ℤ
  orientation : ℤ
  textSizeCap : Option (ℤ × ℤ)
  size : ℤ × ℤ
  shownTextCap : Option String
  text : String
  mirrored : Bool
  italic : Bool
  bold : Bool
  horizJustify : ℤ
  vertJustify : ℤ
  deriving DecidableEq, Repr

/-- Modelled from the spec: `create_path` of the external `svgpath` module
(not part of this source file) serializes a list of polylines into a vector
path description; it is modelled as the identity on the polyline list. -/
def create_path (lines : List (List QPoint)) : List (List QPoint) := lines

/-- Output record of `parse_text`: either a stroke path
(`TransformToSegmentList` host capability) or a metadata record. -/
inductive TextRec
  | path (thickness : ℚ) (svgpath : List (List QPoint))
  | meta (pos : QPoint) (text : String) (height : ℚ) (width : ℚ)
      (justify : ℤ × ℤ) (thickness : ℚ) (attr : List String) (angle : ℚ)
  deriving DecidableEq, Repr

/-- The polyline-merging loop inside `parse_text`: a new polyline starts
whenever the previous segment's end point differs from the next segment's
start point (`if i == 0 or segments[i-1] != segments[i]`). `cur` is the
polyline currently being extended; it always ends with the previous
segment's end point. -/
def strokeAux (cur : List QPoint) : List (QPoint × QPoint) → List (List QPoint)
  | [] => [cur]
  | (s, e) :: rest =>
      if cur.getLast? = some s then strokeAux (cur ++ [e]) rest
      else cur :: strokeAux [s, e] rest

/-- Chunk the normalized segment-endpoint pairs into polylines. -/
def strokeLines : List (QPoint × QPoint) → List (List QPoint)
  | [] => []
  | (s, e) :: rest => strokeAux [s, e] rest

/-- Embedding of `PcbnewParser.parse_text`: invisible text yields `none`; hosts with
`TransformToSegmentList` produce a stroke path, otherwise a metadata
record is built. -/
def parse_text (d : TextItem) : Option TextRec :=
  if !d.visible then none
  else
    let thickness : ℚ :=
      match d.textThicknessCap with
      | some t => (t : ℚ) * (1 / 1000000)
      | none => (d.thickness : ℚ) * (1 / 1000000)
    match d.segmentListCap with
    | some segs =>
        let pairs := segs.map (fun p => (normalize p.1, normalize p.2))
        some (.path thickness (create_path (strokeLines pairs)))
    | none =>
        let angle : ℚ :=
          if d.cls = "MTEXT" then (d.drawRotation : ℚ) * (1 / 10)
          else
            match d.textAngleCap with
            | some a => (a : ℚ) * (1 / 10)
            | none => (d.orientation : ℚ) * (1 / 10)
        let hw : ℚ × ℚ :=
          match d.textSizeCap with
          | some s => ((s.1 : ℚ) * (1 / 1000000), (s.2 : ℚ) * (1 / 1000000))
          | none => ((d.size.1 : ℚ) * (1 / 1000000),
                     (d.size.2 : ℚ) * (1 / 1000000))
        let text :=
          match d.shownTextCap with
          | some t => t
          | none => d.text
        let attributes :=
          (if d.mirrored then ["mirrored"] else []) ++
          (if d.italic then ["italic"] else []) ++
          (if d.bold then ["bold"] else [])
        some (.meta (normalize d.pos) text hw.1 hw.2
          (d.horizJustify, d.vertJustify) thickness attributes angle)

/-- A parsed drawing: either a shape record or a text record. -/
inductive DrawRec
  | shape (s : ShapeRec)
  | text (t : TextRec)
  deriving DecidableEq, Repr

/-- Payload of a board item: drawings are either shape primitives or text
primitives; `other` covers unsupported drawing classes. -/
inductive ItemPayload
  | shape (s : ShapeItem)
  | text (t : TextItem)
  | other
  deriving DecidableEq, Repr

/-- An axis-aligned host rectangle (`EDA_RECT`), corner based. -/
structure Rect where
  x1 : ℤ
  y1 : ℤ
  x2 : ℤ
  y2 : ℤ
  deriving DecidableEq, Repr

/-- Embedding of `EDA_RECT.Merge`: grow a rectangle to cover another. -/
def rectMerge (a b : Rect) : Rect :=
  { x1 := min (min a.x1 a.x2) (min b.x1 b.x2),
    y1 := min (min a.y1 a.y2) (min b.y1 b.y2),
    x2 := max (max a.x1 a.x2) (max b.x1 b.x2),
    y2 := max (max a.y1 a.y2) (max b.y1 b.y2) }

/-- Embedding of `EDA_RECT.Normalize`: reorder corners so min ≤ max on both axes. -/
def rectNormalize (a : Rect) : Rect :=
  { x1 := min a.x1 a.x2, y1 := min a.y1 a.y2,
    x2 := max a.x1 a.x2, y2 := max a.y1 a.y2 }

/-- One drawing-like item owned by the board or a footprint, together with
the host attributes (`GetClass`, `GetLayer`, `GetBoundingBox`) that the
routing code reads. -/
structure BoardItem where
  cls : String
  layer : KLayer
  nativeBBox : Rect
  payload : ItemPayload
  deriving DecidableEq, Repr

/-- Embedding of `PcbnewParser.parse_drawing`: dispatch on the host drawing class. -/
def parse_drawing (d : BoardItem) : Option DrawRec :=
  if d.cls = "DRAWSEGMENT" ∨ d.cls = "MGRAPHIC" ∨ d.cls = "PCB_SHAPE" then
    match d.payload with
    | .shape s => (parse_shape s).map .shape
    | _ => none
  else if d.cls = "PTEXT" ∨ d.cls = "MTEXT" then
    match d.payload with
    | .text t => (parse_text t).map .text
    | _ => none
  else none

/-- The edge-collection loop body of `parse_edges` over one item:
accumulate the parsed drawing and merge the native bounding box. -/
def edgeStep (acc : List DrawRec × Option Rect) (d : BoardItem) :
    List DrawRec × Option Rect :=
  if d.layer = KLayer.EdgeCuts then
    match parse_drawing d with
    | some rec =>
        (acc.1 ++ [rec],
         match acc.2 with
         | none => some d.nativeBBox
         | some bb => some (rectMerge bb d.nativeBBox))
    | none => acc
  else acc

/-- Host pad shape enumeration (`PAD_SHAPE_*`); `unknown` covers every
other value. -/
inductive SrcPadShape
  | rect | oval | circle | roundrect | custom | chamfrect | unknown
  deriving DecidableEq, Repr

/-- Host pad attribute (`PAD_ATTRIB_*`). The source probes whether the
host uses the new names (`PTH`/`NPTH`) or the old ones
(`STANDARD`/`HOLE_NOT_PLATED`); both denote the same two through-hole
attributes, so one enumeration suffices. -/
inductive SrcPadAttr
  | pth | npth | smd | conn
  deriving DecidableEq, Repr

/-- Host drill shape enumeration. -/
inductive SrcDrillShape
  | circle | oblong | unknown
  deriving DecidableEq, Repr

/-- Host capability set for pad shapes: which `PAD_SHAPE_*` constants
exist on this host (`hasattr(pcbnew, ...)` probes in `parse_pad`). -/
structure PadCaps where
  hasRoundrect : Bool
  hasCustom : Bool
  hasChamferedRect : Bool
  deriving DecidableEq, Repr

/-- The shape lookup of `parse_pad`: base table {rect, oval, circle} plus
host-dependent entries; `""` when the shape is absent from the table. -/
def padShapeName (caps : PadCaps) : SrcPadShape → String
  | .rect => "rect"
  | .oval => "oval"
  | .circle => "circle"
  | .roundrect => if caps.hasRoundrect then "roundrect" else ""
  | .custom => if caps.hasCustom then "custom" else ""
  | .chamfrect => if caps.hasChamferedRect then "chamfrect" else ""
  | .unknown => ""

/-- Input model of a `pcbnew.PAD`: the getters `parse_pad` consults.
`offsetCap` is `none` on hosts without `GetOffset`; `padName` is
`GetPadName()` (the designator, read by `parse_footprints`). -/
structure PadIn where
  padName : String
  layersSeq : List KLayer
  pos : IPoint
  size : IPoint
  orientation : ℤ
  shape : SrcPadShape
  customPolys : PolySet
  roundrectRadius : ℤ
  chamferPositions : ℤ
  chamferRectScale : ℚ
  padAttr : SrcPadAttr
  drillShape : SrcDrillShape
  drillSize : IPoint
  offsetCap : Option IPoint
  netname : String
  deriving DecidableEq, Repr

/-- Output record of `parse_pad`: one structure whose `Option` fields
mirror the keys the Python dict carries on each path. `drillshape` is
doubly optional: the key is present only for through-hole pads, and its
value is itself `None` for an unknown host drill shape. -/
structure PadRec where
  layers : List String
  pos : QPoint
  size : QPoint
  angle : ℚ
  shape : String
  polygons : Option (List (List QPoint)) := none
  radius : Option ℚ := none
  chamfpos : Option ℤ := none
  chamfscale : Option ℚ := none
  ty : String
  drillshape : Option (Option String) := none
  drillsize : Option QPoint := none
  offset : Option QPoint := none
  net : Option String := none
  pin1 : Option ℕ := none
  deriving DecidableEq, Repr

/-- Configuration flags consulted by the parser. List/string valued
options (`extra_fields`, the variant filters, `dnp_field`,
`netlist_file`) are modelled by their truthiness; `netlist_file` keeps
its string when truthy. -/
structure Config where
  include_tracks : Bool
  include_nets : Bool
  extra_fields : Bool
  board_variant_whitelist : Bool
  board_variant_blacklist : Bool
  dnp_field : Bool
  netlist_file : Option String
  deriving DecidableEq, Repr

/-- Embedding of `PcbnewParser.parse_pad`: classify one pad into a canonical record,
or `none` for an unsupported shape. -/
def parse_pad (caps : PadCaps) (cfg : Config) (pad : PadIn) : Option PadRec :=
  let layers :=
    (if KLayer.FCu ∈ pad.layersSeq then ["F"] else []) ++
    (if KLayer.BCu ∈ pad.layersSeq then ["B"] else [])
  let pos := normalize pad.pos
  let size := normalize pad.size
  let angle := (pad.orientation : ℚ) * (-(1 : ℚ) / 10)
  let shape := padShapeName caps pad.shape
  if shape = "" then none
  else
    let polygons :=
      if shape = "custom" then some (parse_poly_set pad.customPolys) else none
    let radius :=
      if shape = "roundrect" ∨ shape = "chamfrect" then
        some ((pad.roundrectRadius : ℚ) * (1 / 1000000))
      else none
    let chamfpos := if shape = "chamfrect" then some pad.chamferPositions else none
    let chamfscale := if shape = "chamfrect" then some pad.chamferRectScale else none
    let isTh := pad.padAttr = SrcPadAttr.pth ∨ pad.padAttr = SrcPadAttr.npth
    let drillshape : Option (Option String) :=
      if isTh then
        some (match pad.drillShape with
              | .circle => some "circle"
              | .oblong => some "oblong"
              | .unknown => none)
      else none
    let drillsize := if isTh then some (normalize pad.drillSize) else none
    some { layers := layers, pos := pos, size := size, angle := angle,
           shape := shape, polygons := polygons, radius := radius,
           chamfpos := chamfpos, chamfscale := chamfscale,
           ty := if isTh then "th" else "smd",
           drillshape := drillshape, drillsize := drillsize,
           offset := pad.offsetCap.map normalize,
           net := if cfg.include_nets then some pad.netname else none }

/-- Python string comparison: lexicographic on code points
(`a <= b` for `str`). Defined on the character lists of the strings. -/
def strLeB (a b : List Char) : Bool :=
  match a, b with
  | [], _ => true
  | _ :: _, [] => false
  | c :: cs, d :: ds =>
      if c.toNat < d.toNat then true
      else if d.toNat < c.toNat then false
      else strLeB cs ds

/-- Python `<=` on strings as a relation. -/
def strLe (a b : String) : Prop := strLeB a.data b.data = true

instance : DecidableRel strLe := fun a b => by
  unfold strLe; infer_instance

/-- The ordering used by `sorted(pads, key=lambda el: el[0])`: compare
(designator, pad record) pairs by designator only. -/
def padLe (a b : String × PadRec) : Prop :=
  strLe a.1 b.1

instance : DecidableRel padLe := fun a b => by
  unfold padLe; infer_instance

/-- The canonical first-pin designators of the pin-1 heuristic
(`['1', 'A', 'A1', 'P1', 'PAD1']`). -/
def pin1Names : List String := ["1", "A", "A1", "P1", "PAD1"]

/-- Designator of the first element of a name/record pair list
(`pads[0][0]`); `""` on the empty list, which the caller excludes. -/
def headName : List (String × PadRec) → String
  | [] => ""
  | p :: _ => p.1

/-- The pin-1 designator selection of `parse_footprints` on the sorted
name/record pairs: the first pair whose designator is canonical
(`pin1_pads[0][0]`), else the first designator overall
(`pads[0][0]`). -/
def selFromSorted (sortedPads : List (String × PadRec)) : String :=
  match sortedPads.filter (fun p => p.1 ∈ pin1Names) with
  | p :: _ => p.1
  | [] => headName sortedPads

/-- The pin-1 designator `parse_footprints` selects for a footprint's
parsed name/record pairs (selection happens on the sorted list). -/
def selPadName (pads : List (String × PadRec)) : String :=
  selFromSorted (List.insertionSort padLe pads)

/-- The pad-list assembly of `parse_footprints` on the name/record pair
list of a footprint's parsed pads: sort by designator, select the pin-1
designator, then set `pin1` on every pad whose designator equals the
selection; the final pad list is the second components of the sorted
list. Empty pad lists are returned unchanged (`if pads:`). -/
def assemblePads (pads : List (String × PadRec)) : List PadRec :=
  if pads = [] then pads.map (·.2)
  else
    let sortedPads := List.insertionSort padLe pads
    let pin1_pad_name : String := selFromSorted sortedPads
    (sortedPads.map (fun p =>
      if p.1 = pin1_pad_name then { p.2 with pin1 := some 1 } else p.2))

/-- Input model of a `pcbnew.FOOTPRINT` / `MODULE`: the state and getters
the parser consults. `refItem` and `valItem` are the reference and value
text items (`f.Reference()`, `f.Value()`); `attrBits` is
`GetAttributes()`. -/
structure FootprintIn where
  ref : String
  value : String
  pos : IPoint
  orientation : ℤ
  graphicalItems : List BoardItem
  pads : List PadIn
  layer : KLayer
  refItem : BoardItem
  valItem : BoardItem
  attrBits : ℕ
  fpName : String
  deriving Repr

/-- The footprint bounding-box record of `parse_footprints`
(`bbox = {"pos": ..., "relpos": ..., "size": ..., "angle": ...}`). -/
structure BBoxRec where
  pos : QPoint
  relpos : QPoint
  size : QPoint
  angle : ℚ
  deriving DecidableEq, Repr

/-- One copper drawing entry of a footprint
(`{"layer": ..., "drawing": ...}`). -/
structure FpDrawing where
  layer : String
  drawing : DrawRec
  deriving DecidableEq, Repr

/-- The footprint record assembled by `parse_footprints`. -/
structure FootprintRec where
  ref : String
  bbox : BBoxRec
  pads : List PadRec
  drawings : List FpDrawing
  layer : Option String
  deriving DecidableEq, Repr

/-- Embedding of `GetPosition`/`GetSize` of a host rectangle: the corner and the
(signed) extent, as read by `parse_footprints`. -/
def rectPos (r : Rect) : IPoint := (r.x1, r.y1)

/-- Size of a host rectangle as `GetSize` reports it. -/
def rectSize (r : Rect) : IPoint := (r.x2 - r.x1, r.y2 - r.y1)

/-- The copper-drawings loop of `parse_footprints`: keep only graphical
items on a copper layer, parse them, and tag the logical layer. -/
def fpCopperDrawings (items : List BoardItem) : List FpDrawing :=
  items.filterMap (fun d =>
    if d.layer = KLayer.FCu ∨ d.layer = KLayer.BCu then
      match parse_drawing d with
      | some drawing =>
          some { layer := if d.layer = KLayer.FCu then "F" else "B",
                 drawing := drawing }
      | none => none
    else none)

/-- The per-footprint body of `parse_footprints`, value-level: the local
bounding rectangle of the zeroed disposable copy is supplied by the host
geometry oracle `fpRect` (`GetFootprintRect` / `GetBoundingBox`); the
heap-level rendering of the copy-and-mutate sequence is
`fpBBoxStep` below. -/
def parseFootprintOne (fpRect : FootprintIn → Rect) (caps : PadCaps)
    (cfg : Config) (f : FootprintIn) : FootprintRec :=
  let f_copy := { f with orientation := 0, pos := ((0 : ℤ), (0 : ℤ)) }
  let footprint_rect := fpRect f_copy
  let bbox : BBoxRec :=
    { pos := normalize f.pos,
      relpos := normalize (rectPos footprint_rect),
      size := normalize (rectSize footprint_rect),
      angle := (f.orientation : ℚ) * (1 / 10) }
  let drawings := fpCopperDrawings f.graphicalItems
  let pads := f.pads.filterMap (fun p =>
    (parse_pad caps cfg p).map (fun d => (p.padName, d)))
  { ref := f.ref, bbox := bbox, pads := assemblePads pads,
    drawings := drawings,
    layer := match f.layer with
             | KLayer.FCu => some "F"
             | KLayer.BCu => some "B"
             | _ => none }

/-- Embedding of `PcbnewParser.parse_footprints` (value-level): assemble every
footprint in board iteration order. -/
def parse_footprints (fpRect : FootprintIn → Rect) (caps : PadCaps)
    (cfg : Config) (fps : List FootprintIn) : List FootprintRec :=
  fps.map (parseFootprintOne fpRect caps cfg)

/-- Embedding of `PcbnewParser.parse_edges`: walk board drawings then footprint
graphical items, keep edge-cut items that parse, and merge their native
bounding boxes; the merged box is normalized at the end. -/
def parse_edges (boardDrawings : List BoardItem)
    (fps : List FootprintIn) : List DrawRec × Option Rect :=
  let drawings := boardDrawings ++ fps.flatMap (·.graphicalItems)
  let (edges, bbox) := drawings.foldl edgeStep ([], none)
  (edges, bbox.map rectNormalize)

/-- Embedding of `PcbnewParser.get_all_drawings`: board drawings tagged with their
class, then per footprint the reference and value text items tagged
`"ref"`/`"val"` and the graphical items tagged with their class. -/
def get_all_drawings (boardDrawings : List BoardItem)
    (fps : List FootprintIn) : List (String × BoardItem) :=
  boardDrawings.map (fun d => (d.cls, d)) ++
  fps.flatMap (fun f =>
    [("ref", f.refItem), ("val", f.valItem)] ++
    f.graphicalItems.map (fun d => (d.cls, d)))

/-- A routed drawing of the silkscreen/fabrication buckets: the parsed
record plus the `ref`/`val` marker key the source adds to the dict. -/
structure MarkedDrawing where
  drec : DrawRec
  refMark : Bool
  valMark : Bool
  deriving DecidableEq, Repr

/-- A front/back pair of routed drawing buckets. -/
structure LayerPair where
  F : List MarkedDrawing
  B : List MarkedDrawing
  deriving DecidableEq, Repr

/-- Embedding of `PcbnewParser.parse_drawings_on_layers`: route tagged drawings into
the front/back buckets of one logical layer pair. -/
def parse_drawings_on_layers (drawings : List (String × BoardItem))
    (f_layer b_layer : KLayer) : LayerPair :=
  let routed := drawings.filterMap (fun d =>
    if d.2.layer = f_layer ∨ d.2.layer = b_layer then
      match parse_drawing d.2 with
      | some rec =>
          some (d.2.layer == f_layer,
                ({ drec := rec, refMark := d.1 == "ref",
                   valMark := d.1 == "val" } : MarkedDrawing))
      | none => none
    else none)
  { F := (routed.filter (·.1 == true)).map (·.2),
    B := (routed.filter (·.1 == false)).map (·.2) }

/-- Input model of one track-like board item (`TRACK`/`ARC`/`VIA`):
the getters `parse_tracks` consults. `cls` is `GetClass()`; `onF`/`onB`
are `IsOnLayer` for the two copper layers (read for vias); `layer` is
`GetLayer()` (read for non-vias). -/
structure TrackIn where
  cls : String
  start : IPoint
  end_ : IPoint
  width : ℤ
  netname : String
  onF : Bool
  onB : Bool
  layer : KLayer
  center : IPoint
  arcAngleStart : ℚ
  angle : ℚ
  radius : ℤ
  deriving DecidableEq, Repr

/-- Output record of a track/via/arc dict in `parse_tracks`. -/
structure TrackRec where
  start : Option QPoint := none
  end_ : Option QPoint := none
  center : Option QPoint := none
  startangle : Option ℚ := none
  endangle : Option ℚ := none
  radius : Option ℚ := none
  width : ℚ
  net : Option String := none
  deriving DecidableEq, Repr

/-- The dict `parse_tracks` builds for one track item (`track_dict`):
vias always carry their net name; non-vias carry it only when net
inclusion is configured. -/
def trackDict (cfg : Config) (track : TrackIn) : TrackRec :=
  if track.cls = "VIA" then
    { start := some (normalize track.start),
      end_ := some (normalize track.end_),
      width := (track.width : ℚ) * (1 / 1000000),
      net := some track.netname }
  else if track.cls = "ARC" then
    let a1 := pyRound2 (track.arcAngleStart * (1 / 10))
    let a2 := pyRound2 ((track.arcAngleStart + track.angle) * (1 / 10))
    let p := if track.angle < 0 then (a2, a1) else (a1, a2)
    { center := some (normalize track.center),
      startangle := some p.1, endangle := some p.2,
      radius := some ((track.radius : ℚ) * (1 / 1000000)),
      width := (track.width : ℚ) * (1 / 1000000),
      net := if cfg.include_nets then some track.netname else none }
  else
    { start := some (normalize track.start),
      end_ := some (normalize track.end_),
      width := (track.width : ℚ) * (1 / 1000000),
      net := if cfg.include_nets then some track.netname else none }

/-- A front/back pair of track/zone record buckets. -/
structure TrackPair where
  F : List TrackRec
  B : List TrackRec
  deriving DecidableEq, Repr

/-- The layers one track item is routed to: a via goes to every copper
layer it spans; a non-via goes to its single layer when that layer is
copper, and nowhere otherwise. -/
def trackLayers (track : TrackIn) : List KLayer :=
  if track.cls = "VIA" then
    (if track.onF then [KLayer.FCu] else []) ++
    (if track.onB then [KLayer.BCu] else [])
  else
    if track.layer = KLayer.FCu ∨ track.layer = KLayer.BCu then [track.layer]
    else []

/-- Embedding of `PcbnewParser.parse_tracks`: route every track/arc/via dict into the
front/back buckets. -/
def parse_tracks (cfg : Config) (tracks : List TrackIn) : TrackPair :=
  { F := tracks.flatMap (fun t =>
      if KLayer.FCu ∈ trackLayers t then [trackDict cfg t] else []),
    B := tracks.flatMap (fun t =>
      if KLayer.BCu ∈ trackLayers t then [trackDict cfg t] else []) }

/-- The host polygon-list API of a zone: KiCad ≤ 5.1 exposes one
no-argument `GetFilledPolysList` (the `TypeError` branch of the source),
newer hosts take the layer. -/
inductive ZonePolys
  | oldApi (ps : PolySet)
  | byLayer (f : KLayer → PolySet)

/-- Input model of a `pcbnew.ZONE`: the getters `parse_zones`
consults. `keepoutCap`/`ruleAreaCap`/`fillThicknessCap` are `none` on
hosts lacking the respective method. -/
structure ZoneIn where
  filled : Bool
  keepoutCap : Option Bool
  ruleAreaCap : Option Bool
  layersSeq : List KLayer
  polys : ZonePolys
  minThickness : ℤ
  fillThicknessCap : Option Bool
  netname : String

/-- Output record of one zone dict in `parse_zones`. -/
structure ZoneRec where
  polygons : List (List QPoint)
  width : ℚ
  net : Option String := none
  deriving DecidableEq, Repr

/-- A front/back pair of zone buckets. -/
structure ZonePair where
  F : List ZoneRec
  B : List ZoneRec
  deriving DecidableEq, Repr

/-- Whether `parse_zones` skips a zone: unfilled, keepout, or rule
area. -/
def zoneSkipped (zone : ZoneIn) : Bool :=
  !zone.filled || zone.keepoutCap.getD false || zone.ruleAreaCap.getD false

/-- The zone dict built for one zone on one layer. -/
def zoneDict (cfg : Config) (zone : ZoneIn) (layer : KLayer) : ZoneRec :=
  let poly_set :=
    match zone.polys with
    | .oldApi ps => ps
    | .byLayer f => f layer
  let width : ℚ :=
    match zone.fillThicknessCap with
    | some useThickness =>
        if useThickness then (zone.minThickness : ℚ) * (1 / 1000000) else 0
    | none => (zone.minThickness : ℚ) * (1 / 1000000)
  { polygons := parse_poly_set poly_set, width := width,
    net := if cfg.include_nets then some zone.netname else none }

/-- The per-zone loop of `parse_zones`: one (layer, dict) entry for each
copper layer in the zone's layer sequence, skipped zones excluded. -/
def zoneEntries (cfg : Config) (zone : ZoneIn) : List (KLayer × ZoneRec) :=
  if zoneSkipped zone then []
  else
    (zone.layersSeq.filter
        (fun l => l = KLayer.FCu ∨ l = KLayer.BCu)).map
      (fun layer => (layer, zoneDict cfg zone layer))

/-- Embedding of `PcbnewParser.parse_zones`: route every filled, non-keepout zone
into a bucket per copper layer it occupies. -/
def parse_zones (cfg : Config) (zones : List ZoneIn) : ZonePair :=
  { F := zones.flatMap (fun z =>
      (zoneEntries cfg z).filterMap
        (fun p => if p.1 = KLayer.FCu then some p.2 else none)),
    B := zones.flatMap (fun z =>
      (zoneEntries cfg z).filterMap
        (fun p => if p.1 = KLayer.BCu then some p.2 else none)) }

/-- Embedding of `PcbnewParser.parse_netlist`: the keys of the host's by-name net
dictionary (unique by dict construction), stringified and sorted with
Python string comparison. -/
def parse_netlist (net_info : List String) : List String :=
  List.insertionSort strLe net_info

/-- Host capability set for `footprint_to_component`: the
`FP_EXCLUDE_FROM_BOM` bitmask when that constant exists, else the
`MOD_VIRTUAL` value when that exists. -/
structure AttrCaps where
  fpExcludeFromBom : Option ℕ
  modVirtual : Option ℕ
  deriving DecidableEq, Repr

/-- The BOM component record (`Component` of `ecad.common`). -/
structure Component where
  ref : String
  value : String
  footprint : String
  layer : Option String
  attr : String
  extra_fields : List (String × String)
  deriving DecidableEq, Repr

/-- Embedding of `PcbnewParser.footprint_to_component`. -/
def footprint_to_component (acaps : AttrCaps) (footprint : FootprintIn)
    (extra_fields : List (String × String)) : Component :=
  let attr :=
    match acaps.fpExcludeFromBom with
    | some mask => if footprint.attrBits &&& mask ≠ 0 then "Virtual" else "Normal"
    | none =>
        match acaps.modVirtual with
        | some v => if footprint.attrBits = v then "Virtual" else "Normal"
        | none => "Normal"
  { ref := footprint.ref, value := footprint.value,
    footprint := footprint.fpName,
    layer := match footprint.layer with
             | KLayer.FCu => some "F"
             | KLayer.BCu => some "B"
             | _ => none,
    attr := attr, extra_fields := extra_fields }

/-- Log severity of the parse-level logger calls. -/
inductive LogLevel
  | info | warn | error
  deriving DecidableEq, Repr

/-- One parse-level log entry. -/
structure LogEntry where
  lvl : LogLevel
  msg : String
  deriving DecidableEq, Repr

/-- A reference-designator → field map entry of the external schematic
data (an association list models the Python dict). -/
abbrev ExtraMap := List (String × List (String × String))

/-- The board metadata record. -/
structure Metadata where
  title : String
  revision : String
  company : String
  date : String
  deriving DecidableEq, Repr

/-- The `edges_bbox` record of the board document. -/
structure EdgesBBox where
  minx : ℚ
  miny : ℚ
  maxx : ℚ
  maxy : ℚ
  deriving DecidableEq, Repr

/-- The drawings sub-record of the board document. -/
structure DrawingsRec where
  silkscreen : LayerPair
  fabrication : LayerPair
  deriving DecidableEq, Repr

/-- The canonical board document (`pcbdata`): `bom` is an empty
placeholder populated downstream; `font_data` comes from the external
font service; `tracks`/`zones`/`nets` are present only when
configured. -/
structure Pcbdata where
  edges_bbox : EdgesBBox
  edges : List DrawRec
  drawings : DrawingsRec
  footprints : List FootprintRec
  metadata : Metadata
  font_data : String
  tracks : Option TrackPair := none
  zones : Option ZonePair := none
  nets : Option (List String) := none
  deriving DecidableEq, Repr

/-- Input model of the board snapshot (`pcbnew.BOARD`): drawings,
footprints, tracks, the zone list when the host has `Zones` (KiCad ≥ 5),
the net info when the host has `GetNetInfo`, and the title block.
`hasProjectExpand` is the joint `hasattr` probe for `GetProject` and
`ExpandTextVars`. -/
structure Board where
  drawings : List BoardItem
  footprints : List FootprintIn
  tracks : List TrackIn
  zonesCap : Option (List ZoneIn)
  netInfoCap : Option (List String)
  titleTitle : String
  titleRevision : String
  titleCompany : String
  titleDate : String
  hasProjectExpand : Bool

/-- Oracles for the external collaborators `parse` consults:
`expandVars` is `pcbnew.ExpandTextVars` with the board's project;
`netlistIsFile` is `os.path.isfile(config.netlist_file)`;
`extraParsed` is the result of the external schematic-data parser
(`none` when it cannot parse the file); `mtimeDate` is the formatted
file-modification time; `baseName` is the pcb file name without its
extension; `fontData` is the font service's parsed glyph set;
`fpRect` is the host's bounding-rectangle computation for a footprint
in its current state. -/
structure Host where
  expandVars : String → String
  netlistIsFile : Bool
  extraParsed : Option (ℕ × ExtraMap)
  mtimeDate : String
  baseName : String
  fontData : String
  fpRect : FootprintIn → Rect
  padCaps : PadCaps
  attrCaps : AttrCaps

/-- Whether extra field data was requested by configuration
(`need_extra_fields` before the netlist-file downgrade). -/
def needExtraFields0 (cfg : Config) : Bool :=
  cfg.extra_fields || cfg.board_variant_whitelist ||
  cfg.board_variant_blacklist || cfg.dnp_field

/-- The hard-failure message of the extra-field gate
(`'Failed parsing %s' % self.config.netlist_file`; a `None` netlist file
cannot reach the raise because the request is downgraded first). -/
def failedParsingMsg (cfg : Config) : String :=
  "Failed parsing " ++ cfg.netlist_file.getD "None"

/-- The outline-missing error logged by `parse`. -/
def outlineErrorMsg : String :=
  "Please draw pcb outline on the edges layer on sheet or any footprint before generating BOM."

/-- The warning logged when extra-field options are ignored for lack of
a netlist file. -/
def ignoredFieldsMsg : String :=
  "Ignoring extra fields related config parameters since no netlist/xml file was specified."

/-- The stale-component warning for one reference designator. -/
def missingComponentMsg (ref : String) : String :=
  "Component " ++ ref ++ " is missing from schematic data."

/-- The summary warning after any stale-component warning. -/
def outdatedNetlistMsg : String :=
  "Netlist/xml file is likely out of date."

/-- Result of `parse`: the raised `ParsingException` (as its message), or
the returned pair — `none` models the `(None, None)` return — together
with the entries the parse-level logger received. -/
abbrev ParseResult :=
  Except String (Option (Pcbdata × List Component) × List LogEntry)

/-- Whether extra field data is still requested after the downgrade: the
request is dropped with a warning when no netlist file is configured
(`need_extra_fields` after the `if not self.config.netlist_file`
branch). -/
def needExtra (cfg : Config) : Bool :=
  if cfg.netlist_file.isNone && needExtraFields0 cfg then false
  else needExtraFields0 cfg

/-- The external schematic data actually obtained: the external parser's
result when a netlist file is configured and exists on disk, else
`None`. -/
def extraFieldData (cfg : Config) (host : Host) : Option (ℕ × ExtraMap) :=
  if cfg.netlist_file.isSome && host.netlistIsFile then host.extraParsed
  else none

/-- The extra-field cross-reference loop of `parse`: per footprint the
field map found under its reference (`{}` when absent) and a
stale-component warning for each absent reference. -/
def extraFieldLists (efd : ExtraMap) (fps : List FootprintIn) :
    List (List (String × String)) × List LogEntry :=
  (fps.map (fun f => ((efd.lookup f.ref).getD [])),
   fps.filterMap (fun f =>
     if (efd.lookup f.ref).isSome then none
     else some { lvl := .warn, msg := missingComponentMsg f.ref }))

/-- Embedding of `PcbnewParser.parse`: the top-level extraction. -/
def parse (cfg : Config) (host : Host) (board : Board) : ParseResult :=
  let need := needExtra cfg
  let log0 : List LogEntry :=
    if cfg.netlist_file.isNone && needExtraFields0 cfg then
      [{ lvl := .warn, msg := ignoredFieldsMsg }]
    else []
  let extra_field_data : Option (ℕ × ExtraMap) := extraFieldData cfg host
  if extra_field_data.isNone && need then
    .error (failedParsingMsg cfg)
  else
    let efd : Option ExtraMap := extra_field_data.map (·.2)
    let title0 :=
      if board.hasProjectExpand then host.expandVars board.titleTitle
      else board.titleTitle
    let revision :=
      if board.hasProjectExpand then host.expandVars board.titleRevision
      else board.titleRevision
    let company :=
      if board.hasProjectExpand then host.expandVars board.titleCompany
      else board.titleCompany
    let file_date :=
      if board.titleDate = "" then host.mtimeDate else board.titleDate
    let title := if title0 = "" then host.baseName else title0
    let pe := parse_edges board.drawings board.footprints
    let edges := pe.1
    match pe.2 with
    | none =>
        .ok (none, log0 ++ [{ lvl := .error, msg := outlineErrorMsg }])
    | some bb =>
        let edges_bbox : EdgesBBox :=
          { minx := (bb.x1 : ℚ) * (1 / 1000000),
            miny := (bb.y1 : ℚ) * (1 / 1000000),
            maxx := (bb.x2 : ℚ) * (1 / 1000000),
            maxy := (bb.y2 : ℚ) * (1 / 1000000) }
        let allDrawings := get_all_drawings board.drawings board.footprints
        let pcbdata : Pcbdata :=
          { edges_bbox := edges_bbox, edges := edges,
            drawings :=
              { silkscreen := parse_drawings_on_layers allDrawings
                  KLayer.FSilkS KLayer.BSilkS,
                fabrication := parse_drawings_on_layers allDrawings
                  KLayer.FFab KLayer.BFab },
            footprints := parse_footprints host.fpRect host.padCaps cfg
              board.footprints,
            metadata := { title := title, revision := revision,
                          company := company, date := file_date },
            font_data := host.fontData,
            tracks :=
              if cfg.include_tracks then some (parse_tracks cfg board.tracks)
              else none,
            zones :=
              if cfg.include_tracks then
                some (match board.zonesCap with
                      | some zs => parse_zones cfg zs
                      | none => { F := [], B := [] })
              else none,
            nets :=
              if cfg.include_nets && board.netInfoCap.isSome then
                some (parse_netlist (board.netInfoCap.getD []))
              else none }
        let efdTruthy := match efd with
                         | some m => !m.isEmpty
                         | none => false
        let (e, staleLog) :=
          if efdTruthy && need then
            extraFieldLists (efd.getD []) board.footprints
          else
            (board.footprints.map (fun _ => []), [])
        let warnTail : List LogEntry :=
          if staleLog.isEmpty then []
          else [{ lvl := .warn, msg := outdatedNetlistMsg }]
        let components :=
          (board.footprints.zip e).map
            (fun p => footprint_to_component host.attrCaps p.1 p.2)
        .ok (some (pcbdata, components), log0 ++ staleLog ++ warnTail)

/-!
Heap-level rendering of the bounding-box computation in
`parse_footprints`. The value-level `parseFootprintOne` above abstracts
the copy-and-mutate sequence; to settle the frame property faithfully,
the object store is made explicit: the board's footprints live in a heap
(a list indexed by position), `pcbnew.FOOTPRINT(f)` allocates a fresh
copy at the end of the heap, and `SetOrientation` / `SetPosition`
update the heap at the given index. The board's own footprints occupy
the initial segment of the heap.
-/

/-- Allocate a copy of the footprint at index `i`
(`pcbnew.FOOTPRINT(f)`): the new object's index is the old heap
length. -/
def heapAlloc (h : List FootprintIn) (i : ℕ) : List FootprintIn × ℕ :=
  match h[i]? with
  | some f => (h ++ [f], h.length)
  | none => (h, i)

/-- Embedding of `SetOrientation(v)` on the object at index `j`. -/
def heapSetOrientation (h : List FootprintIn) (j : ℕ) (v : ℤ) :
    List FootprintIn :=
  match h[j]? with
  | some f => h.set j { f with orientation := v }
  | none => h

/-- Embedding of `SetPosition(p)` on the object at index `j`. -/
def heapSetPosition (h : List FootprintIn) (j : ℕ) (p : IPoint) :
    List FootprintIn :=
  match h[j]? with
  | some f => h.set j { f with pos := p }
  | none => h

/-- The bounding-box block of `parse_footprints` for the footprint at
index `i`, heap level: copy, zero the copy's orientation and position,
read the host rectangle of the copy, then build the bbox record from
the original footprint's position and orientation. -/
def fpBBoxStep (fpRect : FootprintIn → Rect) (h : List FootprintIn)
    (i : ℕ) : List FootprintIn × Option BBoxRec :=
  match h[i]? with
  | none => (h, none)
  | some f0 =>
      let aj := heapAlloc h i
      let h2 := heapSetOrientation aj.1 aj.2 0
      let h3 := heapSetPosition h2 aj.2 ((0 : ℤ), (0 : ℤ))
      let footprint_rect :=
        match h3[aj.2]? with
        | some c => fpRect c
        | none => fpRect f0
      let f := (h3[i]?).getD f0
      (h3, some { pos := normalize f.pos,
                  relpos := normalize (rectPos footprint_rect),
                  size := normalize (rectSize footprint_rect),
                  angle := (f.orientation : ℚ) * (1 / 10) })

/-- The footprint loop of `parse_footprints`, heap level, restricted to
the bounding-box block: visit the given indices in order, threading the
heap. -/
def fpBBoxLoop (fpRect : FootprintIn → Rect) :
    List ℕ → List FootprintIn → List FootprintIn × List (Option BBoxRec)
  | [], h => (h, [])
  | i :: rest, h =>
      let s := fpBBoxStep fpRect h i
      let t := fpBBoxLoop fpRect rest s.1
      (t.1, s.2 :: t.2)

/-- Embedding of `parse_footprints` at heap level (bounding-box blocks): iterate over
the board's footprints (the initial heap), returning the final heap and
the bbox record of every footprint. -/
def parseFootprintsSt (fpRect : FootprintIn → Rect)
    (h : List FootprintIn) : List FootprintIn × List (Option BBoxRec) :=
  fpBBoxLoop fpRect (List.range h.length) h

/-- The bbox record `parse_footprints` builds for one footprint: position
and rotation are the original's, the local rectangle is the host
rectangle of the zeroed disposable copy. -/
def localBBox (fpRect : FootprintIn → Rect) (f : FootprintIn) : BBoxRec :=
  let rect := fpRect { f with orientation := 0, pos := ((0 : ℤ), (0 : ℤ)) }
  { pos := normalize f.pos,
    relpos := normalize (rectPos rect),
    size := normalize (rectSize rect),
    angle := (f.orientation : ℚ) * (1 / 10) }

/-!
## Concrete example inputs

Small closed board snapshots used to evaluate the embedded parser at
specific inputs.
-/

/-- A configuration with every optional feature off. -/
def cfgBase : Config :=
  { include_tracks := false, include_nets := false, extra_fields := false,
    board_variant_whitelist := false, board_variant_blacklist := false,
    dnp_field := false, netlist_file := none }

/-- A pad capability set where every optional pad shape exists. -/
def capsAll : PadCaps :=
  { hasRoundrect := true, hasCustom := true, hasChamferedRect := true }

/-- A trivial host bounding-rectangle oracle. -/
def zeroRect (_ : FootprintIn) : Rect := { x1 := 0, y1 := 0, x2 := 0, y2 := 0 }

/-- A board item of an unsupported drawing class. -/
def dummyItem : BoardItem :=
  { cls := "X", layer := KLayer.other,
    nativeBBox := { x1 := 0, y1 := 0, x2 := 0, y2 := 0 },
    payload := ItemPayload.other }

/-- A minimal circular surface-mount pad named `"1"`. -/
def padIn1 : PadIn :=
  { padName := "1", layersSeq := [KLayer.FCu], pos := (0, 0), size := (0, 0),
    orientation := 0, shape := SrcPadShape.circle, customPolys := [],
    roundrectRadius := 0, chamferPositions := 0, chamferRectScale := 0,
    padAttr := SrcPadAttr.smd, drillShape := SrcDrillShape.circle,
    drillSize := (0, 0), offsetCap := none, netname := "N1" }

/-- A second pad also named `"1"` (duplicate designator). -/
def padIn1dup : PadIn := { padIn1 with pos := (1, 1) }

/-- A rectangular pad named `"2"`. -/
def padIn2 : PadIn :=
  { padIn1 with padName := "2", shape := SrcPadShape.rect }

/-- A footprint with two pads both designated `"1"`. -/
def fpDup : FootprintIn :=
  { ref := "R1", value := "V", pos := (0, 0), orientation := 0,
    graphicalItems := [], pads := [padIn1, padIn1dup], layer := KLayer.FCu,
    refItem := dummyItem, valItem := dummyItem, attrBits := 0, fpName := "FP" }

/-- A footprint whose snapshot pad order is `"2"` then `"1"`. -/
def fp21 : FootprintIn := { fpDup with pads := [padIn2, padIn1] }

/-- A bare parsed pad record used to build concrete designator lists. -/
def padRecB : PadRec :=
  { layers := [], pos := (0, 0), size := (0, 0), angle := 0,
    shape := "circle", ty := "smd" }

/-- A concrete arc drawing primitive: start angle 450 decidegrees, sweep
−900 decidegrees. -/
def arcShapeX : ShapeItem :=
  { kind := SrcShapeKind.arc, start := (0, 0), end_ := (0, 0), width := 1,
    radius := 2, arcAngleStart := 450, angle := -900, polyShapeCap := none,
    parentOrientation := none, bezControl1 := (0, 0), bezControl2 := (0, 0) }

/-- A concrete copper track arc with the same angles. -/
def arcTrackX : TrackIn :=
  { cls := "ARC", start := (0, 0), end_ := (0, 0), width := 1,
    netname := "N1", onF := false, onB := false, layer := KLayer.FCu,
    center := (0, 0), arcAngleStart := 450, angle := -900, radius := 2 }

/-- A concrete via spanning both copper layers. -/
def viaX : TrackIn :=
  { arcTrackX with cls := "VIA", onF := true, onB := true }

/-- A concrete straight track segment on the front copper layer. -/
def segX : TrackIn := { arcTrackX with cls := "TRACK" }

/-- A concrete filled zone on the front copper layer. -/
def zoneX : ZoneIn :=
  { filled := true, keepoutCap := some false, ruleAreaCap := none,
    layersSeq := [KLayer.FCu], polys := ZonePolys.oldApi [some [(0, 0)]],
    minThickness := 1, fillThicknessCap := none, netname := "N1" }

/-- A board edge item: a segment drawing on the edge-cuts layer. -/
def edgeItemX : BoardItem :=
  { cls := "PCB_SHAPE", layer := KLayer.EdgeCuts,
    nativeBBox := { x1 := 0, y1 := 0, x2 := 10, y2 := 5 },
    payload := ItemPayload.shape
      { kind := SrcShapeKind.segment, start := (0, 0), end_ := (10, 5),
        width := 1, radius := 0, arcAngleStart := 0, angle := 0,
        polyShapeCap := none, parentOrientation := none,
        bezControl1 := (0, 0), bezControl2 := (0, 0) } }

/-- A board with one outline segment and nothing else. -/
def boardX : Board :=
  { drawings := [edgeItemX], footprints := [], tracks := [],
    zonesCap := none, netInfoCap := none, titleTitle := "T",
    titleRevision := "", titleCompany := "", titleDate := "D",
    hasProjectExpand := false }

/-- A board with no drawings at all (hence no outline). -/
def boardEmpty : Board := { boardX with drawings := [] }

/-- A host oracle with trivial collaborators and no parseable external
field source. -/
def hostX : Host :=
  { expandVars := fun s => s, netlistIsFile := false, extraParsed := none,
    mtimeDate := "M", baseName := "base", fontData := "fd",
    fpRect := zeroRect, padCaps := capsAll, attrCaps := ⟨none, none⟩ }

/-- A configuration that requests extra fields but names no netlist
file. -/
def cfg7 : Config := { cfgBase with extra_fields := true }

/-- Whether a parse result is a success carrying a board document. -/
def isOkSomeB : ParseResult → Bool
  | Except.ok (some _, _) => true
  | _ => false

/-!
## Properties of the code-point string order
-/

theorem strLeB_refl (a : List Char) : strLeB a a = true := by
  induction a with
  | nil => rfl
  | cons c cs ih => simp [strLeB, ih]

theorem strLeB_total (a b : List Char) :
    strLeB a b = true ∨ strLeB b a = true := by
  induction a generalizing b with
  | nil => left; rfl
  | cons c cs ih =>
      cases b with
      | nil => right; rfl
      | cons d ds =>
          rcases Nat.lt_trichotomy c.toNat d.toNat with h | h | h
          · left; simp [strLeB, h]
          · rcases ih ds with h2 | h2
            · left; simp [strLeB, h, h2]
            · right; simp [strLeB, h.symm, h2]
          · right; simp [strLeB, h]

theorem strLeB_trans (a b c : List Char) (hab : strLeB a b = true)
    (hbc : strLeB b c = true) : strLeB a c = true := by
  induction a generalizing b c with
  | nil => rfl
  | cons x xs ih =>
      cases b with
      | nil => simp [strLeB] at hab
      | cons y ys =>
          cases c with
          | nil => simp [strLeB] at hbc
          | cons z zs =>
              simp only [strLeB] at hab hbc ⊢
              split_ifs at hab hbc ⊢ with h1 h2 h3 h4 h5 h6 <;>
                first
                | rfl
                | omega
                | (exact ih ys zs hab hbc)

theorem strLeB_antisymm (a b : List Char) (hab : strLeB a b = true)
    (hba : strLeB b a = true) : a = b := by
  induction a generalizing b with
  | nil =>
      cases b with
      | nil => rfl
      | cons y ys => simp [strLeB] at hba
  | cons x xs ih =>
      cases b with
      | nil => simp [strLeB] at hab
      | cons y ys =>
          by_cases hxy : x.toNat < y.toNat
          · have : ¬ y.toNat < x.toNat := by omega
            simp [strLeB, hxy, this] at hba
          · by_cases hyx : y.toNat < x.toNat
            · simp [strLeB, hxy, hyx] at hab
            · have hxy' : x = y := Char.eq_of_val_eq (UInt32.ext (by
                simp only [Char.toNat] at hxy hyx; omega))
              have hab' : strLeB xs ys = true := by
                simpa [strLeB, hxy, hyx] using hab
              have hba' : strLeB ys xs = true := by
                simpa [strLeB, hxy, hyx] using hba
              rw [hxy', ih ys hab' hba']

instance : IsTotal String strLe :=
  ⟨fun a b => strLeB_total a.data b.data⟩

instance : IsTrans String strLe :=
  ⟨fun a b c => strLeB_trans a.data b.data c.data⟩

instance : IsTotal (String × PadRec) padLe :=
  ⟨fun a b => strLeB_total a.1.data b.1.data⟩

instance : IsTrans (String × PadRec) padLe :=
  ⟨fun a b c => strLeB_trans a.1.data b.1.data c.1.data⟩

theorem strLe_refl (a : String) : strLe a a := strLeB_refl a.data

theorem strLe_antisymm (a b : String) (hab : strLe a b) (hba : strLe b a) :
    a = b := by
  have := strLeB_antisymm a.data b.data hab hba
  cases a; cases b; exact congrArg String.mk this

/-!
## Rounding lemmas
-/

theorem roundHalfEven_ge_floor (q : ℚ) : ⌊q⌋ ≤ roundHalfEven q := by
  simp only [roundHalfEven]
  split_ifs <;> omega

theorem roundHalfEven_le_floor_add_one (q : ℚ) :
    roundHalfEven q ≤ ⌊q⌋ + 1 := by
  simp only [roundHalfEven]
  split_ifs <;> omega

theorem roundHalfEven_mono {a b : ℚ} (h : a ≤ b) :
    roundHalfEven a ≤ roundHalfEven b := by
  rcases lt_or_le ⌊a⌋ ⌊b⌋ with hf | hf
  · calc roundHalfEven a ≤ ⌊a⌋ + 1 := roundHalfEven_le_floor_add_one a
      _ ≤ ⌊b⌋ := by omega
      _ ≤ roundHalfEven b := roundHalfEven_ge_floor b
  · have hfe : ⌊a⌋ = ⌊b⌋ := le_antisymm (Int.floor_mono h) hf
    have hfa : ((⌊a⌋ : ℚ)) ≤ a := Int.floor_le a
    simp only [roundHalfEven, hfe]
    split_ifs <;> first | omega | linarith

theorem pyRound2_mono {a b : ℚ} (h : a ≤ b) : pyRound2 a ≤ pyRound2 b := by
  have h1 : roundHalfEven (a * 100) ≤ roundHalfEven (b * 100) :=
    roundHalfEven_mono (by linarith)
  have h2 : ((roundHalfEven (a * 100) : ℚ)) ≤ (roundHalfEven (b * 100) : ℚ) := by
    exact_mod_cast h1
  simp only [pyRound2]
  linarith

/-- C2: for every arc — board/footprint drawing arc or copper track
arc — the normalized record has `a1 = start angle`, `a2 = a1 + sweep`
(decidegrees scaled to degrees, rounded to two decimals), swapped
exactly when the sweep is negative, so that `startangle ≤ endangle`. -/
theorem arc_angles_normalized (cfg : Config) (d : ShapeItem) (t : TrackIn)
    (hd : d.kind = SrcShapeKind.arc) (ht : t.cls = "ARC") :
    (∃ r, parse_shape d = some r ∧
      r.startangle = some (if d.angle < 0
        then pyRound2 ((d.arcAngleStart + d.angle) * (1 / 10))
        else pyRound2 (d.arcAngleStart * (1 / 10))) ∧
      r.endangle = some (if d.angle < 0
        then pyRound2 (d.arcAngleStart * (1 / 10))
        else pyRound2 ((d.arcAngleStart + d.angle) * (1 / 10))) ∧
      (∀ sa ea, r.startangle = some sa → r.endangle = some ea → sa ≤ ea)) ∧
    ((trackDict cfg t).startangle = some (if t.angle < 0
        then pyRound2 ((t.arcAngleStart + t.angle) * (1 / 10))
        else pyRound2 (t.arcAngleStart * (1 / 10))) ∧
     (trackDict cfg t).endangle = some (if t.angle < 0
        then pyRound2 (t.arcAngleStart * (1 / 10))
        else pyRound2 ((t.arcAngleStart + t.angle) * (1 / 10))) ∧
     (∀ sa ea, (trackDict cfg t).startangle = some sa →
        (trackDict cfg t).endangle = some ea → sa ≤ ea)) := by
  have key : ∀ (s w : ℚ),
      (if w < 0 then pyRound2 ((s + w) * (1 / 10))
       else pyRound2 (s * (1 / 10))) ≤
      (if w < 0 then pyRound2 (s * (1 / 10))
       else pyRound2 ((s + w) * (1 / 10))) := by
    intro s w
    split_ifs with hneg
    · exact pyRound2_mono (by linarith)
    · exact pyRound2_mono (by push_neg at hneg; linarith)
  have hsh : parse_shape d = some
      { ty := "arc", start := some (normalize d.start),
        radius := some ((d.radius : ℚ) * (1 / 1000000)),
        startangle := some (if d.angle < 0
          then pyRound2 ((d.arcAngleStart + d.angle) * (1 / 10))
          else pyRound2 (d.arcAngleStart * (1 / 10))),
        endangle := some (if d.angle < 0
          then pyRound2 (d.arcAngleStart * (1 / 10))
          else pyRound2 ((d.arcAngleStart + d.angle) * (1 / 10))),
        width := some ((d.width : ℚ) * (1 / 1000000)) } := by
    simp only [parse_shape, shapeName, hd]
    norm_num
    split_ifs <;> simp_all
  have htd : trackDict cfg t =
      { center := some (normalize t.center),
        startangle := some (if t.angle < 0
          then pyRound2 ((t.arcAngleStart + t.angle) * (1 / 10))
          else pyRound2 (t.arcAngleStart * (1 / 10))),
        endangle := some (if t.angle < 0
          then pyRound2 (t.arcAngleStart * (1 / 10))
          else pyRound2 ((t.arcAngleStart + t.angle) * (1 / 10))),
        radius := some ((t.radius : ℚ) * (1 / 1000000)),
        width := (t.width : ℚ) * (1 / 1000000),
        net := if cfg.include_nets then some t.netname else none } := by
    simp only [trackDict, ht]
    norm_num
    split_ifs <;> simp_all
  refine ⟨⟨_, hsh, rfl, rfl, ?_⟩, ?_, ?_, ?_⟩
  · intro sa ea hsa hea
    simp only [Option.some.injEq] at hsa hea
    rw [← hsa, ← hea]
    exact key d.arcAngleStart d.angle
  · rw [htd]
  · rw [htd]
  · intro sa ea hsa hea
    rw [htd] at hsa hea
    simp only [Option.some.injEq] at hsa hea
    rw [← hsa, ← hea]
    exact key t.arcAngleStart t.angle

/-- Witness for C2 at a concrete arc (start 45°, sweep −90°). -/
theorem arc_angles_normalized_witness :
    (∃ r, parse_shape arcShapeX = some r ∧
      r.startangle = some (if arcShapeX.angle < 0
        then pyRound2 ((arcShapeX.arcAngleStart + arcShapeX.angle) * (1 / 10))
        else pyRound2 (arcShapeX.arcAngleStart * (1 / 10))) ∧
      r.endangle = some (if arcShapeX.angle < 0
        then pyRound2 (arcShapeX.arcAngleStart * (1 / 10))
        else pyRound2 ((arcShapeX.arcAngleStart + arcShapeX.angle) * (1 / 10))) ∧
      (∀ sa ea, r.startangle = some sa → r.endangle = some ea → sa ≤ ea)) ∧
    ((trackDict cfgBase arcTrackX).startangle = some (if arcTrackX.angle < 0
        then pyRound2 ((arcTrackX.arcAngleStart + arcTrackX.angle) * (1 / 10))
        else pyRound2 (arcTrackX.arcAngleStart * (1 / 10))) ∧
     (trackDict cfgBase arcTrackX).endangle = some (if arcTrackX.angle < 0
        then pyRound2 (arcTrackX.arcAngleStart * (1 / 10))
        else pyRound2 ((arcTrackX.arcAngleStart + arcTrackX.angle) * (1 / 10))) ∧
     (∀ sa ea, (trackDict cfgBase arcTrackX).startangle = some sa →
        (trackDict cfgBase arcTrackX).endangle = some ea → sa ≤ ea)) :=
  arc_angles_normalized cfgBase arcShapeX arcTrackX rfl rfl

/-- C5: the net list is an ascending, duplicate-free (strictly
increasing) rearrangement of the input net names. -/
theorem netlist_sorted_unique (net_info : List String)
    (hnd : net_info.Nodup) :
    (parse_netlist net_info).Pairwise (fun a b => strLe a b ∧ a ≠ b) ∧
    (parse_netlist net_info).Perm net_info := by
  have hperm := List.perm_insertionSort strLe net_info
  have hsorted : List.Sorted strLe (parse_netlist net_info) :=
    List.sorted_insertionSort strLe net_info
  have hnd2 : (parse_netlist net_info).Nodup := hperm.symm.nodup hnd
  exact ⟨List.Pairwise.and hsorted hnd2, hperm⟩

/-- Witness for C5 at a concrete net-name list. -/
theorem netlist_sorted_unique_witness :
    (["Net-B", "GND", "Net-A"] : List String).Nodup ∧
    ((parse_netlist ["Net-B", "GND", "Net-A"]).Pairwise
        (fun a b => strLe a b ∧ a ≠ b) ∧
      (parse_netlist ["Net-B", "GND", "Net-A"]).Perm
        ["Net-B", "GND", "Net-A"]) :=
  ⟨by decide, netlist_sorted_unique ["Net-B", "GND", "Net-A"] (by decide)⟩

/-- C6: polygon-set extraction returns one point sequence per outline in
source order, preserving point count and order (each point normalized);
when an outline lacks the point-enumeration capability, the outlines
collected before it are returned as a partial result. -/
theorem poly_set_extraction (outlines : List (List IPoint)) (rest : PolySet) :
    parse_poly_set (outlines.map some) =
      outlines.map (fun o => o.map normalize) ∧
    parse_poly_set (outlines.map some ++ none :: rest) =
      outlines.map (fun o => o.map normalize) ∧
    ∀ o ∈ outlines, (o.map normalize).length = o.length := by
  refine ⟨?_, ?_, ?_⟩
  · induction outlines with
    | nil => rfl
    | cons o os ih => simp [parse_poly_set, ih]
  · induction outlines with
    | nil => rfl
    | cons o os ih => simp [parse_poly_set, ih]
  · intro o _
    simp

/-- C10: vias always carry their net name; non-via tracks, pads and
zones carry one exactly when net inclusion is configured; every emitted
track record is the dict of some input track. -/
theorem via_net_always_present (cfg : Config) (t : TrackIn)
    (tracks : List TrackIn) (caps : PadCaps) (p : PadIn) (z : ZoneIn)
    (layer : KLayer) :
    (t.cls = "VIA" → (trackDict cfg t).net = some t.netname) ∧
    (t.cls ≠ "VIA" →
      (trackDict cfg t).net =
        (if cfg.include_nets then some t.netname else none)) ∧
    (∀ d, parse_pad caps cfg p = some d →
      d.net = (if cfg.include_nets then some p.netname else none)) ∧
    (zoneDict cfg z layer).net =
      (if cfg.include_nets then some z.netname else none) ∧
    (∀ r, r ∈ (parse_tracks cfg tracks).F ∨ r ∈ (parse_tracks cfg tracks).B →
      ∃ t2 ∈ tracks, r = trackDict cfg t2) := by
  refine ⟨?_, ?_, ?_, ?_, ?_⟩
  · intro h
    simp [trackDict, h]
  · intro h
    simp only [trackDict]
    rw [if_neg h]
    split_ifs <;> rfl
  · intro d hd
    simp only [parse_pad] at hd
    split at hd
    · simp at hd
    · injection hd with h
      rw [← h]
  · simp [zoneDict]
  · intro r hr
    rcases hr with hr | hr <;>
      · simp only [parse_tracks] at hr
        rw [List.mem_flatMap] at hr
        obtain ⟨t2, ht2, hmem⟩ := hr
        split_ifs at hmem with h
        · simp only [List.mem_singleton] at hmem
          exact ⟨t2, ht2, hmem⟩
        · simp at hmem

/-- Witness for C10 at a concrete via, segment, pad and zone. -/
theorem via_net_always_present_witness :
    (trackDict cfgBase viaX).net = some viaX.netname ∧
    (trackDict cfgBase segX).net =
      (if cfgBase.include_nets then some segX.netname else none) ∧
    (∀ d, parse_pad capsAll cfgBase padIn1 = some d →
      d.net = (if cfgBase.include_nets then some padIn1.netname else none)) ∧
    (zoneDict cfgBase zoneX KLayer.FCu).net =
      (if cfgBase.include_nets then some zoneX.netname else none) :=
  ⟨(via_net_always_present cfgBase viaX [] capsAll padIn1 zoneX KLayer.FCu).1
      rfl,
   (via_net_always_present cfgBase segX [] capsAll padIn1 zoneX
      KLayer.FCu).2.1 (by decide),
   (via_net_always_present cfgBase segX [] capsAll padIn1 zoneX
      KLayer.FCu).2.2.1,
   (via_net_always_present cfgBase segX [] capsAll padIn1 zoneX
      KLayer.FCu).2.2.2.1⟩

/-!
## Pin-1 selection lemmas
-/

theorem sorted_head_min {l : List (String × PadRec)}
    (hs : List.Sorted padLe l) : ∀ p ∈ l, strLe (headName l) p.1 := by
  cases l with
  | nil => intro p hp; cases hp
  | cons q qs =>
      intro p hp
      rcases List.mem_cons.mp hp with rfl | hp2
      · exact strLe_refl p.1
      · exact List.rel_of_sorted_cons hs p hp2

theorem selFromSorted_spec (l : List (String × PadRec))
    (hs : List.Sorted padLe l) (hne : l ≠ []) :
    selFromSorted l ∈ l.map (·.1) ∧
    ((∃ p ∈ l, p.1 ∈ pin1Names) →
       (∃ p ∈ l, p.1 ∈ pin1Names ∧ selFromSorted l = p.1) ∧
       ∀ p ∈ l, p.1 ∈ pin1Names → strLe (selFromSorted l) p.1) ∧
    ((∀ p ∈ l, p.1 ∉ pin1Names) →
       ∀ p ∈ l, strLe (selFromSorted l) p.1) := by
  rcases hf : l.filter (fun p => p.1 ∈ pin1Names) with _ | ⟨q, qs⟩
  · have hnomatch : ∀ p ∈ l, p.1 ∉ pin1Names := by
      intro p hp hmem
      have : p ∈ l.filter (fun p => p.1 ∈ pin1Names) :=
        List.mem_filter.mpr ⟨hp, by simpa using hmem⟩
      rw [hf] at this
      cases this
    have hsel : selFromSorted l = headName l := by
      simp [selFromSorted, hf]
    refine ⟨?_, ?_, ?_⟩
    · rw [hsel]
      cases l with
      | nil => exact absurd rfl hne
      | cons p ps => exact List.mem_map.mpr ⟨p, List.mem_cons_self p ps, rfl⟩
    · intro ⟨p, hp, hp1⟩
      exact absurd hp1 (hnomatch p hp)
    · intro _
      rw [hsel]
      exact sorted_head_min hs
  · have hsel : selFromSorted l = q.1 := by
      simp [selFromSorted, hf]
    have hq : q ∈ l.filter (fun p => p.1 ∈ pin1Names) := by
      rw [hf]; exact List.mem_cons_self q qs
    have hql : q ∈ l := (List.mem_filter.mp hq).1
    have hq1 : q.1 ∈ pin1Names := by
      have := (List.mem_filter.mp hq).2
      simpa using this
    have hfs : List.Sorted padLe (l.filter (fun p => p.1 ∈ pin1Names)) :=
      hs.filter _
    refine ⟨?_, ?_, ?_⟩
    · rw [hsel]
      exact List.mem_map.mpr ⟨q, hql, rfl⟩
    · intro _
      refine ⟨⟨q, hql, hq1, hsel⟩, ?_⟩
      intro p hp hp1
      have hpf : p ∈ l.filter (fun p => p.1 ∈ pin1Names) :=
        List.mem_filter.mpr ⟨hp, by simpa using hp1⟩
      rw [hf] at hpf
      rw [hsel]
      rcases List.mem_cons.mp hpf with rfl | hp2
      · exact strLe_refl p.1
      · rw [hf] at hfs
        exact List.rel_of_sorted_cons hfs p hp2
    · intro hall
      exact absurd hq1 (hall q hql)

theorem selPadName_mem (pads : List (String × PadRec)) (hne : pads ≠ []) :
    selPadName pads ∈ pads.map (·.1) := by
  have hperm := List.perm_insertionSort padLe pads
  have hs := List.sorted_insertionSort padLe pads
  have hne2 : List.insertionSort padLe pads ≠ [] := by
    intro h0
    rw [h0] at hperm
    exact hne hperm.symm.eq_nil
  have hmem := (selFromSorted_spec _ hs hne2).1
  rw [List.mem_map] at hmem ⊢
  obtain ⟨p, hp, hq⟩ := hmem
  exact ⟨p, hperm.mem_iff.mp hp, hq⟩

theorem parse_pad_pin1_none (caps : PadCaps) (cfg : Config) (p : PadIn)
    (d : PadRec) (hd : parse_pad caps cfg p = some d) : d.pin1 = none := by
  simp only [parse_pad] at hd
  split at hd
  · simp at hd
  · injection hd with h
    rw [← h]

theorem assemblePads_count (pads : List (String × PadRec))
    (hpin : ∀ p ∈ pads, p.2.pin1 = none) :
    (assemblePads pads).countP (fun q => q.pin1 == some 1) =
      (pads.map (·.1)).count (selPadName pads) := by
  by_cases hne : pads = []
  · subst hne
    simp [assemblePads, selPadName]
  · have hperm := List.perm_insertionSort padLe pads
    rw [assemblePads, if_neg hne]
    rw [List.countP_map]
    have hcg : List.countP
        ((fun q => q.pin1 == some 1) ∘ (fun p : String × PadRec =>
          if p.1 = selFromSorted (List.insertionSort padLe pads)
          then { p.2 with pin1 := some 1 } else p.2))
        (List.insertionSort padLe pads) =
        List.countP (fun p : String × PadRec => p.1 == selPadName pads)
        (List.insertionSort padLe pads) := by
      apply List.countP_congr
      intro p hp
      by_cases h : p.1 = selPadName pads
      · simp [selPadName] at h ⊢
        simp [h]
      · have hnone := hpin p (hperm.mem_iff.mp hp)
        simp [selPadName] at h ⊢
        simp [h, hnone]
    rw [hcg]
    have : List.countP (fun p : String × PadRec => p.1 == selPadName pads)
        (List.insertionSort padLe pads) =
        List.count (selPadName pads)
          ((List.insertionSort padLe pads).map (·.1)) := by
      rw [List.count_eq_countP, List.countP_map]
      rfl
    rw [this]
    exact (hperm.map (·.1)).count_eq (selPadName pads)
/-- C4: pin-1 selection sorts pads lexicographically by designator; if
any designator is canonical, the lexicographically earliest canonical
designator is marked; otherwise the lexicographically smallest
designator overall is marked. -/
theorem pin1_selection (pads : List (String × PadRec)) (hne : pads ≠ []) :
    selPadName pads ∈ pads.map (·.1) ∧
    ((∃ p ∈ pads, p.1 ∈ pin1Names) →
       (∃ p ∈ pads, p.1 ∈ pin1Names ∧ selPadName pads = p.1) ∧
       ∀ p ∈ pads, p.1 ∈ pin1Names → strLe (selPadName pads) p.1) ∧
    ((∀ p ∈ pads, p.1 ∉ pin1Names) →
       ∀ p ∈ pads, strLe (selPadName pads) p.1) ∧
    assemblePads pads = (List.insertionSort padLe pads).map
      (fun p => if p.1 = selPadName pads then { p.2 with pin1 := some 1 }
                else p.2) := by
  have hperm := List.perm_insertionSort padLe pads
  have hs := List.sorted_insertionSort padLe pads
  have hne2 : List.insertionSort padLe pads ≠ [] := by
    intro h0
    rw [h0] at hperm
    exact hne hperm.symm.eq_nil
  obtain ⟨hmem, hex, hnone⟩ := selFromSorted_spec _ hs hne2
  refine ⟨selPadName_mem pads hne, ?_, ?_, ?_⟩
  · intro ⟨p, hp, hp1⟩
    obtain ⟨⟨q, hq, hq1, hqs⟩, hmin⟩ :=
      hex ⟨p, hperm.mem_iff.mpr hp, hp1⟩
    refine ⟨⟨q, hperm.mem_iff.mp hq, hq1, hqs⟩, ?_⟩
    intro r hr hr1
    exact hmin r (hperm.mem_iff.mpr hr) hr1
  · intro hall p hp
    exact hnone (fun q hq => hall q (hperm.mem_iff.mp hq)) p
      (hperm.mem_iff.mpr hp)
  · rw [assemblePads, if_neg hne]
    rfl

/-- Witness for C4 at the concrete pad set {"B2", "B1"} (no canonical
name present): "B1" is selected. -/
theorem pin1_selection_witness :
    selPadName [("B2", padRecB), ("B1", padRecB)] ∈
      [("B2", padRecB), ("B1", padRecB)].map (·.1) ∧
    selPadName [("B2", padRecB), ("B1", padRecB)] = "B1" :=
  ⟨(pin1_selection [("B2", padRecB), ("B1", padRecB)] (by decide)).1,
   by decide⟩

/-- Counterexample to C3 as stated: a footprint with two pads both
designated "1" gets the pin1 flag on both of them. -/
theorem pin1_flag_count_counterexample :
    ((parse_footprints zeroRect capsAll cfgBase [fpDup]).map
      (fun fr => fr.pads.countP (fun q => q.pin1 == some 1))) = [2] := by
  decide

/-- C3 amended: the pads flagged pin1 are exactly those bearing the
selected designator, so their number equals that designator's
multiplicity; it is 0 or 1 whenever the designators are pairwise
distinct (0 exactly when no pad parses). -/
theorem pin1_flag_count (fpRect : FootprintIn → Rect) (caps : PadCaps)
    (cfg : Config) (f : FootprintIn) (parsed : List (String × PadRec))
    (hp : parsed = f.pads.filterMap (fun p =>
        (parse_pad caps cfg p).map (fun d => (p.padName, d)))) :
    (parseFootprintOne fpRect caps cfg f).pads.countP
        (fun q => q.pin1 == some 1) =
      (parsed.map (·.1)).count (selPadName parsed) ∧
    ((parsed.map (·.1)).Nodup →
      (parseFootprintOne fpRect caps cfg f).pads.countP
        (fun q => q.pin1 == some 1) ≤ 1) ∧
    (parsed ≠ [] →
      1 ≤ (parseFootprintOne fpRect caps cfg f).pads.countP
        (fun q => q.pin1 == some 1)) := by
  have hpads : (parseFootprintOne fpRect caps cfg f).pads =
      assemblePads parsed := by
    rw [hp]
    rfl
  have hpin : ∀ p ∈ parsed, p.2.pin1 = none := by
    intro p hpm
    rw [hp] at hpm
    rw [List.mem_filterMap] at hpm
    obtain ⟨q, _, hq⟩ := hpm
    rw [Option.map_eq_some'] at hq
    obtain ⟨d, hd, rfl⟩ := hq
    exact parse_pad_pin1_none caps cfg q d hd
  rw [hpads, assemblePads_count parsed hpin]
  refine ⟨rfl, ?_, ?_⟩
  · intro hnd
    exact List.nodup_iff_count_le_one.mp hnd (selPadName parsed)
  · intro hne
    rw [Nat.succ_le_iff, List.count_pos_iff]
    exact selPadName_mem parsed hne

/-- Witness for C3 (amended) at a concrete footprint with distinct
designators "2", "1". -/
theorem pin1_flag_count_witness :
    (parseFootprintOne zeroRect capsAll cfgBase fp21).pads.countP
        (fun q => q.pin1 == some 1) =
      ((fp21.pads.filterMap (fun p =>
        (parse_pad capsAll cfgBase p).map (fun d => (p.padName, d)))).map
          (·.1)).count (selPadName (fp21.pads.filterMap (fun p =>
        (parse_pad capsAll cfgBase p).map (fun d => (p.padName, d))))) ∧
    (((fp21.pads.filterMap (fun p =>
        (parse_pad capsAll cfgBase p).map (fun d => (p.padName, d)))).map
          (·.1)).Nodup →
      (parseFootprintOne zeroRect capsAll cfgBase fp21).pads.countP
        (fun q => q.pin1 == some 1) ≤ 1) ∧
    (fp21.pads.filterMap (fun p =>
        (parse_pad capsAll cfgBase p).map (fun d => (p.padName, d))) ≠ [] →
      1 ≤ (parseFootprintOne zeroRect capsAll cfgBase fp21).pads.countP
        (fun q => q.pin1 == some 1)) :=
  pin1_flag_count zeroRect capsAll cfgBase fp21 _ rfl
theorem flatMap_singleton_eq_filterMap {α β : Type} (P : α → Prop)
    [DecidablePred P] (g : α → β) (ts : List α) :
    ts.flatMap (fun t => if P t then [g t] else []) =
      ts.filterMap (fun t => if P t then some (g t) else none) := by
  induction ts with
  | nil => rfl
  | cons t ts ih =>
      simp only [List.flatMap_cons, List.filterMap_cons]
      split_ifs with h
      · simp [ih]
      · simp [ih]

/-- Counterexample to C8 as stated: a footprint whose snapshot pad order
is "2" then "1" emits its pads in sorted order "1", "2", not snapshot
order. -/
theorem pad_order_counterexample :
    ((parse_footprints zeroRect capsAll cfgBase [fp21]).map
      (fun fr => fr.pads.map (·.shape))) ≠
    [(fp21.pads.filterMap (parse_pad capsAll cfgBase)).map (·.shape)] := by
  decide

/-- C8 amended: footprint, drawing and track order follow the snapshot
iteration order, but the emitted pad list of a footprint is the
lexicographically sorted (by designator) permutation of its parsed pads
— the same sorted list used for pin-1 selection — with the pin1 mark
applied. -/
theorem output_order (fpRect : FootprintIn → Rect) (caps : PadCaps)
    (cfg : Config) (fps : List FootprintIn) (ts : List TrackIn) :
    (parse_footprints fpRect caps cfg fps).map (·.ref) =
      fps.map (·.ref) ∧
    (∀ f ∈ fps, ∃ l : List (String × PadRec),
      l.Perm (f.pads.filterMap (fun p =>
        (parse_pad caps cfg p).map (fun d => (p.padName, d)))) ∧
      List.Sorted padLe l ∧
      (parseFootprintOne fpRect caps cfg f).pads =
        l.map (fun q => if q.1 = selPadName (f.pads.filterMap (fun p =>
            (parse_pad caps cfg p).map (fun d => (p.padName, d))))
          then { q.2 with pin1 := some 1 } else q.2) ∧
      (parseFootprintOne fpRect caps cfg f).drawings =
        fpCopperDrawings f.graphicalItems) ∧
    (parse_tracks cfg ts).F = ts.filterMap (fun t =>
      if KLayer.FCu ∈ trackLayers t then some (trackDict cfg t) else none) ∧
    (parse_tracks cfg ts).B = ts.filterMap (fun t =>
      if KLayer.BCu ∈ trackLayers t then some (trackDict cfg t) else none) := by
  refine ⟨?_, ?_, ?_, ?_⟩
  · simp only [parse_footprints, List.map_map]
    rfl
  · intro f _
    refine ⟨List.insertionSort padLe (f.pads.filterMap (fun p =>
        (parse_pad caps cfg p).map (fun d => (p.padName, d)))),
      List.perm_insertionSort padLe _, List.sorted_insertionSort padLe _,
      ?_, rfl⟩
    by_cases hne : f.pads.filterMap (fun p =>
        (parse_pad caps cfg p).map (fun d => (p.padName, d))) = []
    · show assemblePads _ = _
      rw [hne]
      rfl
    · show assemblePads _ = _
      rw [assemblePads, if_neg hne]
      rfl
  · exact flatMap_singleton_eq_filterMap _ _ ts
  · exact flatMap_singleton_eq_filterMap _ _ ts

/-- Witness for C8 (amended) at a concrete one-footprint board. -/
theorem output_order_witness :
    fp21 ∈ [fp21] ∧
    (∃ l : List (String × PadRec),
      l.Perm (fp21.pads.filterMap (fun p =>
        (parse_pad capsAll cfgBase p).map (fun d => (p.padName, d)))) ∧
      List.Sorted padLe l ∧
      (parseFootprintOne zeroRect capsAll cfgBase fp21).pads =
        l.map (fun q => if q.1 = selPadName (fp21.pads.filterMap (fun p =>
            (parse_pad capsAll cfgBase p).map (fun d => (p.padName, d))))
          then { q.2 with pin1 := some 1 } else q.2) ∧
      (parseFootprintOne zeroRect capsAll cfgBase fp21).drawings =
        fpCopperDrawings fp21.graphicalItems) :=
  ⟨List.mem_singleton.mpr rfl,
   (output_order zeroRect capsAll cfgBase [fp21] []).2.1 fp21
     (List.mem_singleton.mpr rfl)⟩
/-!
## Heap lemmas for the frame property
-/

theorem take_set_of_le {α : Type} (l : List α) (j n : ℕ) (a : α)
    (h : n ≤ j) : (l.set j a).take n = l.take n := by
  induction l generalizing j n with
  | nil => simp
  | cons x xs ih =>
      cases j with
      | zero =>
          have : n = 0 := by omega
          subst this
          simp
      | succ j =>
          cases n with
          | zero => simp
          | succ n =>
              rw [List.set_cons_succ, List.take_succ_cons,
                List.take_succ_cons, ih j n (by omega)]

theorem fpBBoxStep_some (fpRect : FootprintIn → Rect)
    (h : List FootprintIn) (i : ℕ) (f : FootprintIn)
    (hi : h[i]? = some f) :
    fpBBoxStep fpRect h i =
      (((h ++ [f]).set h.length { f with orientation := 0 }).set h.length
          { f with orientation := 0, pos := ((0 : ℤ), (0 : ℤ)) },
       some (localBBox fpRect f)) := by
  have hlt : i < h.length := by
    by_contra hc
    rw [List.getElem?_eq_none (by omega)] at hi
    cases hi
  have h1 : (h ++ [f])[h.length]? = some f :=
    List.getElem?_concat_length h f
  have h2 : ((h ++ [f]).set h.length
      ({ f with orientation := 0 } : FootprintIn))[h.length]? =
      some { f with orientation := 0 } :=
    List.getElem?_set_self (by simp)
  have h3j : ((((h ++ [f]).set h.length
      ({ f with orientation := 0 } : FootprintIn))).set h.length
      ({ f with orientation := 0, pos := ((0 : ℤ), (0 : ℤ)) } :
        FootprintIn))[h.length]? =
      some { f with orientation := 0, pos := ((0 : ℤ), (0 : ℤ)) } :=
    List.getElem?_set_self (by simp)
  have h3i : ((((h ++ [f]).set h.length
      ({ f with orientation := 0 } : FootprintIn))).set h.length
      ({ f with orientation := 0, pos := ((0 : ℤ), (0 : ℤ)) } :
        FootprintIn))[i]? = some f := by
    rw [List.getElem?_set_ne (by omega), List.getElem?_set_ne (by omega),
      List.getElem?_append, if_pos hlt]
    exact hi
  simp only [fpBBoxStep, hi, heapAlloc, heapSetOrientation,
    heapSetPosition, h1, h2, h3j, h3i]
  rfl

theorem fpBBoxLoop_spec (fpRect : FootprintIn → Rect) (idxs : List ℕ) :
    ∀ (h0 h : List FootprintIn), h0.length ≤ h.length →
    h.take h0.length = h0 → (∀ i ∈ idxs, i < h0.length) →
    (fpBBoxLoop fpRect idxs h).1.take h0.length = h0 ∧
    (fpBBoxLoop fpRect idxs h).2 =
      idxs.map (fun i => (h0[i]?).map (localBBox fpRect)) := by
  induction idxs with
  | nil =>
      intro h0 h _ htake _
      exact ⟨htake, rfl⟩
  | cons i rest ih =>
      intro h0 h hlen htake hidx
      have hi0 : i < h0.length := hidx i (List.mem_cons_self i rest)
      have hieq : h[i]? = h0[i]? := by
        rw [← htake, List.getElem?_take, if_pos hi0]
      rcases hf : h0[i]? with _ | f
      · rw [List.getElem?_eq_none_iff] at hf
        omega
      · have hstep := fpBBoxStep_some fpRect h i f (hieq.trans hf)
        have htake2 : (fpBBoxStep fpRect h i).1.take h0.length = h0 := by
          rw [hstep]
          rw [take_set_of_le _ _ _ _ (by omega),
            take_set_of_le _ _ _ _ (by omega),
            List.take_append_of_le_length hlen, htake]
        have hlen2 : h0.length ≤ (fpBBoxStep fpRect h i).1.length := by
          rw [hstep]
          simp only [List.length_set, List.length_append,
            List.length_singleton]
          omega
        obtain ⟨ih1, ih2⟩ := ih h0 (fpBBoxStep fpRect h i).1 hlen2 htake2
          (fun j hj => hidx j (List.mem_cons_of_mem i hj))
        refine ⟨ih1, ?_⟩
        simp only [fpBBoxLoop]
        rw [ih2, hstep, List.map_cons, hf]
        rfl

theorem range_map_getElem {α β : Type} (l : List α) (g : α → β) :
    (List.range l.length).map (fun i => (l[i]?).map g) =
      l.map (fun a => some (g a)) := by
  induction l with
  | nil => rfl
  | cons a as ih =>
      rw [List.length_cons, List.range_succ_eq_map]
      simp only [List.map_cons, List.map_map]
      congr 1
      · simp
      · rw [← ih]
        apply List.map_congr_left
        intro i _
        simp
/-- C9: the extraction never mutates the source board snapshot: at heap
level, after the whole footprint loop runs — allocating a disposable
copy per footprint and zeroing the copy's orientation and position —
the board's own footprints (the initial heap segment) are unchanged,
and every bbox record equals the value-level one, whose local rectangle
is computed on the zeroed copy. -/
theorem no_board_mutation (fpRect : FootprintIn → Rect) (caps : PadCaps)
    (cfg : Config) (h : List FootprintIn) :
    (parseFootprintsSt fpRect h).1.take h.length = h ∧
    (parseFootprintsSt fpRect h).2 =
      (parse_footprints fpRect caps cfg h).map (fun fr => some fr.bbox) := by
  obtain ⟨h1, h2⟩ := fpBBoxLoop_spec fpRect (List.range h.length) h h
    (le_refl _) (List.take_length h) (fun i hi => List.mem_range.mp hi)
  refine ⟨h1, ?_⟩
  show (fpBBoxLoop fpRect (List.range h.length) h).2 = _
  rw [h2, range_map_getElem h (localBBox fpRect)]
  simp only [parse_footprints, List.map_map]
  rfl
/-!
## Parse-level lemmas
-/

theorem foldl_edgeStep_id (l : List BoardItem)
    (hl : ∀ d ∈ l, d.layer = KLayer.EdgeCuts → parse_drawing d = none) :
    ∀ acc, l.foldl edgeStep acc = acc := by
  induction l with
  | nil => intro acc; rfl
  | cons d ds ih =>
      intro acc
      rw [List.foldl_cons]
      have hstep : edgeStep acc d = acc := by
        unfold edgeStep
        by_cases hL : d.layer = KLayer.EdgeCuts
        · rw [if_pos hL, hl d (List.mem_cons_self d ds) hL]
        · rw [if_neg hL]
      rw [hstep]
      exact ih (fun e he hL => hl e (List.mem_cons_of_mem d he) hL) acc

theorem parse_edges_none (board : Board)
    (hl : ∀ d ∈ board.drawings ++
        board.footprints.flatMap (fun f => f.graphicalItems),
      d.layer = KLayer.EdgeCuts → parse_drawing d = none) :
    parse_edges board.drawings board.footprints = ([], none) := by
  simp only [parse_edges]
  rw [foldl_edgeStep_id _ hl]
  rfl

/-- C1: when no edge-cuts drawing or footprint graphical item parses to
an outline shape, `parse` produces no board document — either the
extra-field gate raised first, or the outline error is logged and the
`(None, None)` pair is returned. -/
theorem no_outline_hard_failure (cfg : Config) (host : Host) (board : Board)
    (hl : ∀ d ∈ board.drawings ++
        board.footprints.flatMap (fun f => f.graphicalItems),
      d.layer = KLayer.EdgeCuts → parse_drawing d = none) :
    (∃ m, parse cfg host board = Except.error m) ∨
    (∃ log, parse cfg host board = Except.ok (none, log) ∧
      ({ lvl := LogLevel.error, msg := outlineErrorMsg } : LogEntry) ∈ log) := by
  have hpe := parse_edges_none board hl
  by_cases hg : ((extraFieldData cfg host).isNone && needExtra cfg) = true
  · left
    refine ⟨failedParsingMsg cfg, ?_⟩
    simp [parse, hg]
  · right
    refine ⟨(if cfg.netlist_file.isNone && needExtraFields0 cfg then
        [({ lvl := LogLevel.warn, msg := ignoredFieldsMsg } : LogEntry)]
      else []) ++
        [{ lvl := LogLevel.error, msg := outlineErrorMsg }], ?_, by simp⟩
    simp [parse, hg, hpe]

/-- Witness for C1 at a concrete board with no drawings at all. -/
theorem no_outline_hard_failure_witness :
    (∃ m, parse cfgBase hostX boardEmpty = Except.error m) ∨
    (∃ log, parse cfgBase hostX boardEmpty = Except.ok (none, log) ∧
      ({ lvl := LogLevel.error, msg := outlineErrorMsg } : LogEntry) ∈ log) :=
  no_outline_hard_failure cfgBase hostX boardEmpty
    (by intro d hd; simp [boardEmpty, boardX] at hd)
/-- Counterexample to C7 as stated: with extra fields requested
(`extra_fields` configured) but no netlist file configured at all — the
external source being unavailable — `parse` does not abort: it returns
a board document (the request is merely downgraded with a warning). -/
theorem extra_fields_gate_counterexample :
    cfg7.extra_fields = true ∧ cfg7.netlist_file = none ∧
    hostX.extraParsed = none ∧
    isOkSomeB (parse cfg7 hostX boardX) = true := by
  refine ⟨rfl, rfl, rfl, ?_⟩
  decide

/-- C7 amended: when extra fields are requested and a netlist file is
configured but missing or unparseable, `parse` aborts with the typed
parsing failure and no board document; when no netlist file is
configured the request is ignored with a warning (not a failure); when
no extra fields are requested, absence of the source is never a
failure. -/
theorem extra_fields_gate (cfg : Config) (host : Host) (board : Board) :
    (needExtraFields0 cfg = true → ∀ f, cfg.netlist_file = some f →
      (host.netlistIsFile = false ∨ host.extraParsed = none) →
      parse cfg host board = Except.error (failedParsingMsg cfg)) ∧
    (needExtraFields0 cfg = false →
      ∀ m, parse cfg host board ≠ Except.error m) ∧
    (cfg.netlist_file = none →
      ∀ m, parse cfg host board ≠ Except.error m) ∧
    (cfg.netlist_file = none → needExtraFields0 cfg = true →
      ∃ v log, parse cfg host board = Except.ok (v, log) ∧
        ({ lvl := LogLevel.warn, msg := ignoredFieldsMsg } : LogEntry) ∈
          log) := by
  refine ⟨?_, ?_, ?_, ?_⟩
  · intro hneed f hf hun
    have h1 : extraFieldData cfg host = none := by
      rcases hun with hu | hu
      · simp [extraFieldData, hu]
      · simp [extraFieldData, hu]
    have h2 : needExtra cfg = true := by
      simp [needExtra, hf, hneed]
    have hg : ((extraFieldData cfg host).isNone && needExtra cfg) = true := by
      simp [h1, h2]
    simp [parse, hg]
  · intro hneed m heq
    have hg : ¬ ((extraFieldData cfg host).isNone &&
        needExtra cfg) = true := by
      simp [needExtra, hneed]
    rcases hb : (parse_edges board.drawings board.footprints).2 with _ | bb <;>
      simp [parse, hg, hb] at heq
  · intro hf m heq
    have hg : ¬ ((extraFieldData cfg host).isNone &&
        needExtra cfg) = true := by
      simp only [needExtra, hf]
      cases hn : needExtraFields0 cfg <;> simp
    rcases hb : (parse_edges board.drawings board.footprints).2 with _ | bb <;>
      simp [parse, hg, hb] at heq
  · intro hf hneed
    have hg : ¬ ((extraFieldData cfg host).isNone &&
        needExtra cfg) = true := by
      simp [needExtra, hf, hneed]
    have hefd : extraFieldData cfg host = none := by
      simp [extraFieldData, hf]
    have hne : needExtra cfg = false := by
      simp [needExtra, hf, hneed]
    rcases hres : parse cfg host board with m | ⟨v, log⟩
    · exfalso
      rcases hb : (parse_edges board.drawings board.footprints).2
        with _ | bb <;> simp [parse, hg, hb] at hres
    · refine ⟨v, log, rfl, ?_⟩
      rcases hb : (parse_edges board.drawings board.footprints).2
        with _ | bb
      · simp [parse, hne, hb, hf, hneed, hefd] at hres
        obtain ⟨-, hlog⟩ := hres
        rw [← hlog]
        simp
      · simp [parse, hne, hb, hf, hneed, hefd] at hres
        obtain ⟨-, hlog⟩ := hres
        rw [← hlog]
        simp

/-- Witness for C7 (amended) at a configured-but-missing netlist file. -/
theorem extra_fields_gate_witness :
    needExtraFields0 ({ cfg7 with netlist_file := some "n.xml" }) = true ∧
    parse { cfg7 with netlist_file := some "n.xml" } hostX boardX =
      Except.error
        (failedParsingMsg { cfg7 with netlist_file := some "n.xml" }) :=
  ⟨by decide,
   (extra_fields_gate { cfg7 with netlist_file := some "n.xml" } hostX
      boardX).1 (by decide) "n.xml" rfl (Or.inl rfl)⟩
/-- Witness for C6 at a concrete polygon set of two outlines followed by
a capability-lacking outline. -/
theorem poly_set_extraction_witness :
    parse_poly_set ([[((1 : ℤ), (2 : ℤ))], [((3 : ℤ), (4 : ℤ)), ((5 : ℤ), (6 : ℤ))]].map some) =
      [[((1 : ℤ), (2 : ℤ))], [((3 : ℤ), (4 : ℤ)), ((5 : ℤ), (6 : ℤ))]].map
        (fun o => o.map normalize) ∧
    parse_poly_set ([[((1 : ℤ), (2 : ℤ))], [((3 : ℤ), (4 : ℤ)), ((5 : ℤ), (6 : ℤ))]].map some ++
        none :: [some [((7 : ℤ), (8 : ℤ))]]) =
      [[((1 : ℤ), (2 : ℤ))], [((3 : ℤ), (4 : ℤ)), ((5 : ℤ), (6 : ℤ))]].map
        (fun o => o.map normalize) ∧
    ∀ o ∈ [[((1 : ℤ), (2 : ℤ))], [((3 : ℤ), (4 : ℤ)), ((5 : ℤ), (6 : ℤ))]],
      (o.map normalize).length = o.length :=
  poly_set_extraction [[(1, 2)], [(3, 4), (5, 6)]] [some [(7, 8)]]
end KC
